import Mathlib

/-!
Verification of the `filebasepy` client (`src/filebasepy/__init__.py`) against
its specification.

The embedding is shallow: every method of the `Filebase` class becomes a pure
Lean function over an explicit backend oracle (`Env`), returning both the list
of backend calls the method issues and the Python value it returns.  Fallible
external steps (opening a file, a boto3/requests call, JSON decoding, a dict
key lookup) are modelled with `Except Exn`/`Option`, and the `try/except
Exception as error: return error` wrapper of every method is reflected by
mapping each raised exception to the `.exn` variant of the result union.

The standard-library collaborators are modelled from their documented
semantics:
 * `json.dumps(data, indent=4)` (the default `ensure_ascii=True` encoder,
   4-space indentation, `", "`-free item separator and `": "` key separator)
   as `dumpsVal`;
 * `json.loads` as a fuel-indexed recursive-descent reader (`parseVal`),
   restricted to the float-free fragment of JSON (this repository never
   produces floats; IEEE floats are outside the embedding);
 * `str.encode('utf-8')` / byte decoding as `utf8Encode` / `utf8Decode`
   (Lean `Char` is a Unicode scalar value, which matches the domain of
   `encode('utf-8')`: a Python string holding a lone surrogate cannot be
   UTF-8 encoded at all);
 * `base64.b64encode` as `b64encode`;
 * `str.lower()` as the character-wise `pyLower` (it agrees with Python on
   ASCII, the realm of bucket names).
-/

namespace Filebasepy

/-- Python `bytes` values, one `Nat < 256` per byte. -/
abbrev Bytes := List Nat

/-- A Python `dict` of HTTP headers, in insertion order. -/
abbrev Headers := List (String × String)

/-- The exceptions a `Filebase` method body can raise, caught by its
`except Exception as error` clause: `OSError` from `open`, an error raised
by the boto3/requests backend call, `KeyError` from a dict lookup, and
`json.JSONDecodeError` from `response.json()`. -/
inductive Exn where
  | ioError (msg : String)
  | clientError (msg : String)
  | keyError (key : String)
  | jsonDecodeError (doc : String)
deriving DecidableEq, Repr

/-! ### The JSON value universe (`json.dumps` / `json.loads`) -/

/-- A JSON-serializable Python value: `None`, `bool`, `int`, `str`, `list`,
`dict` (string keys, unique in a real Python dict).  Floats are excluded:
the client never produces them and IEEE floats are outside this embedding. -/
inductive Json where
  | null
  | bool (b : Bool)
  | int (i : Int)
  | str (s : String)
  | arr (xs : List Json)
  | obj (ms : List (String × Json))
deriving Inhabited

/-- Lowercase hexadecimal digit character for `n < 16`
(CPython formats `\uXXXX` escapes with `'%04x'`). -/
def hexDigit (n : Nat) : Char :=
  if n < 10 then Char.ofNat ('0'.toNat + n) else Char.ofNat ('a'.toNat + (n - 10))

/-- A `\uXXXX` escape for a code unit `n < 0x10000`. -/
def uEsc (n : Nat) : List Char :=
  ['\\', 'u', hexDigit (n / 4096 % 16), hexDigit (n / 256 % 16),
   hexDigit (n / 16 % 16), hexDigit (n % 16)]

/-- `json.dumps` (`ensure_ascii=True`) encoding of one character: printable
ASCII other than `"` and `\` is literal, the seven short escapes, `\uXXXX`
for other code points below `0x10000`, and a surrogate pair above. -/
def escChar (c : Char) : List Char :=
  if c = '"' then ['\\', '"']
  else if c = '\\' then ['\\', '\\']
  else if c = '\n' then ['\\', 'n']
  else if c = '\r' then ['\\', 'r']
  else if c = '\t' then ['\\', 't']
  else if c.toNat = 0x08 then ['\\', 'b']
  else if c.toNat = 0x0C then ['\\', 'f']
  else if 0x20 ≤ c.toNat ∧ c.toNat ≤ 0x7E then [c]
  else if c.toNat < 0x10000 then uEsc c.toNat
  else uEsc (0xD800 + (c.toNat - 0x10000) / 0x400) ++
       uEsc (0xDC00 + (c.toNat - 0x10000) % 0x400)

/-- A JSON string literal: quote, escaped characters, quote. -/
def renderStr (s : String) : List Char :=
  '"' :: (s.data.flatMap escChar ++ ['"'])

/-- Decimal digits of `n`, most significant first (Python `repr` of a
non-negative `int`). -/
def natDigits (n : Nat) : List Char :=
  if n < 10 then [Char.ofNat (48 + n % 10)]
  else natDigits (n / 10) ++ [Char.ofNat (48 + n % 10)]
termination_by n
decreasing_by omega

/-- Python `repr` of an `int`: optional minus sign, then decimal digits. -/
def intChars (i : Int) : List Char :=
  (if i < 0 then ['-'] else []) ++ natDigits i.natAbs

/-- `k` space characters. -/
def spaces (k : Nat) : List Char := List.replicate k ' '

/-- The newline-plus-indentation block `json.dumps(..., indent=4)` emits
before an element at nesting level `k`. -/
def nlIndent (k : Nat) : List Char := '\n' :: spaces (4 * k)

mutual
/-- `json.dumps(data, indent=4)` at nesting level `ind`: scalars inline,
empty containers as `[]`/`{}`, non-empty containers one element per line,
indented four more spaces per level, `": "` after each object key. -/
def dumpsVal : Nat → Json → List Char
  | _, .null => ['n', 'u', 'l', 'l']
  | _, .bool true => ['t', 'r', 'u', 'e']
  | _, .bool false => ['f', 'a', 'l', 's', 'e']
  | _, .int i => intChars i
  | _, .str s => renderStr s
  | _, .arr [] => ['[', ']']
  | ind, .arr (e :: es) =>
      '[' :: (nlIndent (ind + 1) ++ dumpsVal (ind + 1) e ++
              dumpsElems (ind + 1) es ++ nlIndent ind ++ [']'])
  | _, .obj [] => ['{', '}']
  | ind, .obj (m :: ms) =>
      '{' :: (nlIndent (ind + 1) ++ dumpsMember (ind + 1) m ++
              dumpsMembers (ind + 1) ms ++ nlIndent ind ++ ['}'])
/-- The remaining elements of a non-empty array: `,`, newline-indent, element. -/
def dumpsElems : Nat → List Json → List Char
  | _, [] => []
  | ind, e :: es => ',' :: (nlIndent ind ++ dumpsVal ind e ++ dumpsElems ind es)
/-- One object member: rendered key, `": "`, rendered value. -/
def dumpsMember : Nat → String × Json → List Char
  | ind, (k, v) => renderStr k ++ ':' :: ' ' :: dumpsVal ind v
/-- The remaining members of a non-empty object. -/
def dumpsMembers : Nat → List (String × Json) → List Char
  | _, [] => []
  | ind, m :: ms => ',' :: (nlIndent ind ++ dumpsMember ind m ++ dumpsMembers ind ms)
end

/-- The full text of `json.dumps(data, indent=4)` (top level is nesting 0). -/
def dumpsTop (j : Json) : List Char := dumpsVal 0 j

/-! ### `json.loads` (float-free fragment) -/

/-- JSON whitespace (`json.loads` skips space, tab, newline, return). -/
def isWs (c : Char) : Bool := c == '\t' || c == '\n' || c == '\r' || c == ' '

/-- An ASCII decimal digit. -/
def isDigit (c : Char) : Bool := '0' ≤ c && c ≤ '9'

/-- Drop leading JSON whitespace. -/
def skipWs : List Char → List Char
  | [] => []
  | c :: cs => if isWs c then skipWs cs else c :: cs

/-- Split a leading run of decimal digits from the rest. -/
def takeDigits : List Char → List Char × List Char
  | c :: cs =>
      if isDigit c then
        let (ds, r) := takeDigits cs
        (c :: ds, r)
      else ([], c :: cs)
  | [] => ([], [])

/-- The natural number a digit run denotes. -/
def digitsToNat (ds : List Char) : Nat :=
  ds.foldl (fun acc c => acc * 10 + (c.toNat - 48)) 0

/-- Value of one hexadecimal digit character. -/
def hexVal (c : Char) : Option Nat :=
  let n := c.toNat
  if 48 ≤ n ∧ n ≤ 57 then some (n - 48)
  else if 97 ≤ n ∧ n ≤ 102 then some (n - 87)
  else if 65 ≤ n ∧ n ≤ 70 then some (n - 55)
  else none

/-- Value of a four-hex-digit group. -/
def hex4 (a b c d : Char) : Option Nat :=
  match hexVal a, hexVal b, hexVal c, hexVal d with
  | some va, some vb, some vc, some vd => some (va * 4096 + vb * 256 + vc * 16 + vd)
  | _, _, _, _ => none

/-- The character a short escape denotes (`json.loads` also accepts `\/`). -/
def unescChar : Char → Option Char
  | '"' => some '"'
  | '\\' => some '\\'
  | '/' => some '/'
  | 'b' => some (Char.ofNat 0x08)
  | 'f' => some (Char.ofNat 0x0C)
  | 'n' => some '\n'
  | 'r' => some '\r'
  | 't' => some '\t'
  | _ => none

/-- Read a string literal body after the opening quote, accumulator reversed.
Surrogate pairs in `\uXXXX` escapes are recombined (as `json.loads` does);
a lone surrogate escape is rejected (it denotes no Unicode scalar value),
as are raw control characters (`json.loads` strict mode). -/
def parseStrAux (acc input : List Char) : Option (List Char × List Char) :=
  match acc, input with
  | acc, '"' :: rest => some (acc.reverse, rest)
  | acc, '\\' :: 'u' :: a :: b :: c :: d :: rest =>
      match hex4 a b c d with
      | none => none
      | some n =>
        if 0xD800 ≤ n ∧ n ≤ 0xDBFF then
          match rest with
          | '\\' :: 'u' :: a2 :: b2 :: c2 :: d2 :: rest2 =>
              match hex4 a2 b2 c2 d2 with
              | none => none
              | some m =>
                if 0xDC00 ≤ m ∧ m ≤ 0xDFFF then
                  parseStrAux
                    (Char.ofNat (0x10000 + (n - 0xD800) * 0x400 + (m - 0xDC00)) :: acc) rest2
                else none
          | _ => none
        else if 0xDC00 ≤ n ∧ n ≤ 0xDFFF then none
        else parseStrAux (Char.ofNat n :: acc) rest
  | acc, '\\' :: e :: rest =>
      match unescChar e with
      | some ch => parseStrAux (ch :: acc) rest
      | none => none
  | acc, c :: rest => if c.toNat < 0x20 then none else parseStrAux (c :: acc) rest
  | _, [] => none
termination_by structural input

/-- Read a string literal after the opening quote. -/
def parseStr (cs : List Char) : Option (String × List Char) :=
  (parseStrAux [] cs).map (fun p => (String.mk p.1, p.2))

/-- Read an integer token: optional minus sign, then digits.  A following
`.`, `e` or `E` would make the token a float, which is outside this
embedding, so such input is rejected rather than misread. -/
def parseIntTok (cs : List Char) : Option (Int × List Char) :=
  let (neg, cs1) : Bool × List Char := match cs with
    | '-' :: r => (true, r)
    | _ => (false, cs)
  let (ds, cs2) := takeDigits cs1
  if ds.isEmpty then none
  else
    let val : Int := if neg then -(digitsToNat ds : Int) else (digitsToNat ds : Int)
    match cs2 with
    | c :: _ => if c = '.' || c = 'e' || c = 'E' then none else some (val, cs2)
    | [] => some (val, [])

/-- A remainder that cannot extend a rendered integer token: empty, or
headed by a character that is neither a digit nor `.`, `e`, `E`.  Every
delimiter `json.dumps` can emit after a number (`,`, newline, `]`, `}`,
end of text) qualifies. -/
def numDelim : List Char → Bool
  | [] => true
  | c :: _ => !(c == '.' || c == 'e' || c == 'E' || isDigit c)

mutual
/-- `json.loads`: read one value (fuel-indexed for totality). -/
def parseVal (fuel : Nat) (cs : List Char) : Option (Json × List Char) :=
  match fuel with
  | 0 => none
  | fuel + 1 =>
    match skipWs cs with
    | 'n' :: 'u' :: 'l' :: 'l' :: r => some (.null, r)
    | 't' :: 'r' :: 'u' :: 'e' :: r => some (.bool true, r)
    | 'f' :: 'a' :: 'l' :: 's' :: 'e' :: r => some (.bool false, r)
    | '"' :: r =>
        match parseStr r with
        | some (s, r1) => some (.str s, r1)
        | none => none
    | '[' :: r =>
        match skipWs r with
        | [] => none
        | c :: r1 =>
            if c = ']' then some (.arr [], r1)
            else
              match parseElems fuel (c :: r1) with
              | some (es, r2) => some (.arr es, r2)
              | none => none
    | '{' :: r =>
        match skipWs r with
        | [] => none
        | c :: r1 =>
            if c = '}' then some (.obj [], r1)
            else
              match parseMembers fuel (c :: r1) with
              | some (ms, r2) => some (.obj ms, r2)
              | none => none
    | c :: r =>
        if c == '-' || isDigit c then
          match parseIntTok (c :: r) with
          | some (i, r1) => some (.int i, r1)
          | none => none
        else none
    | [] => none
/-- Read one-or-more comma-separated array elements up to `]`. -/
def parseElems (fuel : Nat) (cs : List Char) : Option (List Json × List Char) :=
  match fuel with
  | 0 => none
  | fuel + 1 =>
    match parseVal fuel cs with
    | none => none
    | some (v, r) =>
        match skipWs r with
        | ',' :: r1 =>
            match parseElems fuel (skipWs r1) with
            | some (vs, r2) => some (v :: vs, r2)
            | none => none
        | ']' :: r1 => some ([v], r1)
        | _ => none
/-- Read one-or-more comma-separated object members up to `}`. -/
def parseMembers (fuel : Nat) (cs : List Char) : Option (List (String × Json) × List Char) :=
  match fuel with
  | 0 => none
  | fuel + 1 =>
    match skipWs cs with
    | '"' :: r =>
        match parseStr r with
        | none => none
        | some (key, r1) =>
            match skipWs r1 with
            | ':' :: r2 =>
                match parseVal fuel (skipWs r2) with
                | none => none
                | some (v, r3) =>
                    match skipWs r3 with
                    | ',' :: r4 =>
                        match parseMembers fuel (skipWs r4) with
                        | some (ms, r5) => some ((key, v) :: ms, r5)
                        | none => none
                    | '}' :: r4 => some ([(key, v)], r4)
                    | _ => none
            | _ => none
    | _ => none
end

/-- `json.loads` on a character list: one value, then only trailing whitespace. -/
def loadsL (cs : List Char) : Option Json :=
  match parseVal (cs.length + 1) cs with
  | none => none
  | some (j, r) => if (skipWs r).isEmpty then some j else none

/-- `json.loads` on a string (as `requests.Response.json()` calls it). -/
def loadsTop (s : String) : Option Json := loadsL s.data

/-! ### UTF-8 (`str.encode('utf-8')`) and base64 (`base64.b64encode`) -/

/-- UTF-8 bytes of one Unicode scalar value. -/
def utf8Char (c : Char) : Bytes :=
  let n := c.toNat
  if n < 0x80 then [n]
  else if n < 0x800 then [0xC0 + n / 64, 0x80 + n % 64]
  else if n < 0x10000 then [0xE0 + n / 4096, 0x80 + n / 64 % 64, 0x80 + n % 64]
  else [0xF0 + n / 262144, 0x80 + n / 4096 % 64, 0x80 + n / 64 % 64, 0x80 + n % 64]

/-- `str.encode('utf-8')`. -/
def utf8Encode (cs : List Char) : Bytes := cs.flatMap utf8Char

mutual
/-- UTF-8 decoding (strict: rejects overlong forms, surrogates, and
out-of-range values, as Python's `bytes.decode('utf-8')` does).  The
two-, three- and four-byte continuations live in helper functions. -/
def utf8Decode (input : Bytes) : Option (List Char) :=
  match input with
  | [] => some []
  | b :: rest =>
      if b < 0x80 then (utf8Decode rest).map (Char.ofNat b :: ·)
      else if b < 0xC2 then none
      else if b < 0xE0 then utf8Cont2 b rest
      else if b < 0xF0 then utf8Cont3 b rest
      else if b < 0xF5 then utf8Cont4 b rest
      else none
/-- Second byte of a two-byte UTF-8 sequence with leading byte `b`. -/
def utf8Cont2 (b : Nat) (rest : Bytes) : Option (List Char) :=
  match rest with
  | b2 :: r =>
      if 0x80 ≤ b2 ∧ b2 < 0xC0 then
        (utf8Decode r).map (Char.ofNat ((b - 0xC0) * 64 + (b2 - 0x80)) :: ·)
      else none
  | [] => none
/-- Continuation bytes of a three-byte UTF-8 sequence (surrogates rejected). -/
def utf8Cont3 (b : Nat) (rest : Bytes) : Option (List Char) :=
  match rest with
  | b2 :: b3 :: r =>
      if 0x80 ≤ b2 ∧ b2 < 0xC0 ∧ 0x80 ≤ b3 ∧ b3 < 0xC0 then
        let n := (b - 0xE0) * 4096 + (b2 - 0x80) * 64 + (b3 - 0x80)
        if 0x800 ≤ n ∧ ¬(0xD800 ≤ n ∧ n < 0xE000) then
          (utf8Decode r).map (Char.ofNat n :: ·)
        else none
      else none
  | _ => none
/-- Continuation bytes of a four-byte UTF-8 sequence. -/
def utf8Cont4 (b : Nat) (rest : Bytes) : Option (List Char) :=
  match rest with
  | b2 :: b3 :: b4 :: r =>
      if 0x80 ≤ b2 ∧ b2 < 0xC0 ∧ 0x80 ≤ b3 ∧ b3 < 0xC0 ∧ 0x80 ≤ b4 ∧ b4 < 0xC0 then
        let n := (b - 0xF0) * 262144 + (b2 - 0x80) * 4096 + (b3 - 0x80) * 64 + (b4 - 0x80)
        if 0x10000 ≤ n ∧ n < 0x110000 then
          (utf8Decode r).map (Char.ofNat n :: ·)
        else none
      else none
  | _ => none
end

/-- `bytes.decode('utf-8')` then `json.loads`: how a reader deserializes an
uploaded JSON payload. -/
def deserialize (bs : Bytes) : Option Json := (utf8Decode bs).bind loadsL

/-- The standard base64 alphabet. -/
def b64Alphabet : List Char :=
  "ABCDEFGHIJKLMNOPQRSTUVWXYZabcdefghijklmnopqrstuvwxyz0123456789+/".data

/-- Base64 digit for a 6-bit group. -/
def b64Char (n : Nat) : Char := b64Alphabet.getD n 'A'

/-- `base64.b64encode`, three input bytes to four output characters,
`=`-padded. -/
def b64encodeL : Bytes → List Char
  | [] => []
  | [b1] => [b64Char (b1 / 4), b64Char (b1 % 4 * 16), '=', '=']
  | [b1, b2] => [b64Char (b1 / 4), b64Char (b1 % 4 * 16 + b2 / 16),
                 b64Char (b2 % 16 * 4), '=']
  | b1 :: b2 :: b3 :: rest =>
      b64Char (b1 / 4) :: b64Char (b1 % 4 * 16 + b2 / 16) ::
      b64Char (b2 % 16 * 4 + b3 / 64) :: b64Char (b3 % 64) :: b64encodeL rest

/-- `base64.b64encode(..).decode('utf-8')`: base64 output is ASCII, so the
decode step is the identity embedding into `String`. -/
def b64encode (bs : Bytes) : String := String.mk (b64encodeL bs)

/-! ### The client data model -/

/-- Python `str.lower()`: lowercase each character (`Char.toLower` agrees
with Python on ASCII, the realm of bucket names). -/
def pyLower (s : String) : String := String.mk (s.data.map Char.toLower)

/-- `API_ENDPOINT` global constant. -/
def API_ENDPOINT : String := "https://api.filebase.io/v1/"

/-- `AWS_ENDPOINT` global constant. -/
def AWS_ENDPOINT : String := "https://s3.filebase.com"

/-- The boto3 S3 client handle as configured in `__init__`: endpoint and the
credential pair it was bound to. -/
structure S3Handle where
  endpoint_url : String
  aws_access_key_id : String
  aws_secret_access_key : String
deriving DecidableEq, Repr

/-- The `Filebase` session object: the two credential attributes and the
`self.s3` handle, all set in `__init__` and never reassigned. -/
structure Filebase where
  filebase_api_key : String
  filebase_secret_api_key : String
  s3 : S3Handle
deriving DecidableEq, Repr

/-- `Filebase.__init__`: store the credentials and build the boto3 client
against `AWS_ENDPOINT` with them. -/
def Filebase.init (filebase_api_key filebase_secret_api_key : String) : Filebase :=
  { filebase_api_key := filebase_api_key
    filebase_secret_api_key := filebase_secret_api_key
    s3 := { endpoint_url := AWS_ENDPOINT
            aws_access_key_id := filebase_api_key
            aws_secret_access_key := filebase_secret_api_key } }

/-- One bucket descriptor in a `list_buckets` response (`'Buckets'`). -/
structure S3Bucket where
  Name : String
  CreationDate : String
deriving DecidableEq, Repr

/-- The `'ResponseMetadata'` sub-dict of a boto3 response. -/
structure RespMeta where
  HTTPStatusCode : Nat
  HTTPHeaders : Headers
deriving DecidableEq, Repr

/-- A boto3 object-store response dict: its `'ResponseMetadata'`, plus the
`'Buckets'` list for `list_buckets` responses. -/
structure S3Response where
  ResponseMetadata : RespMeta
  Buckets : List S3Bucket
deriving DecidableEq, Repr

/-- A `requests.Response`: status code, reason phrase, body text. -/
structure HttpResponse where
  status_code : Nat
  reason : String
  text : String
deriving DecidableEq, Repr

/-- `requests.Response.ok`: true exactly when the status code is below 400. -/
def HttpResponse.ok (r : HttpResponse) : Bool := r.status_code < 400

/-- The `reason` field of a normalized error record: the object-store branch
of `handle_error` stores the numeric status code there, the HTTP branch the
reason phrase. -/
inductive ErrReason where
  | ofNat (n : Nat)
  | ofStr (s : String)
deriving DecidableEq, Repr

/-- The `text` field of a normalized error record: the full object-store
response dict, or the HTTP body text. -/
inductive ErrText where
  | ofResp (r : S3Response)
  | ofStr (s : String)
deriving DecidableEq, Repr

/-- The normalized error dict `{"status": .., "reason": .., "text": ..}`. -/
structure ErrorRecord where
  status : Nat
  reason : ErrReason
  text : ErrText
deriving DecidableEq, Repr

/-- The argument of `handle_error`: either a boto3 response dict
(`isinstance(response, dict)` holds) or a `requests.Response` object. -/
inductive HEInput where
  | dict (r : S3Response)
  | httpResp (r : HttpResponse)
deriving DecidableEq, Repr

/-- `Filebase.handle_error` (static): normalize either response shape into an
`ErrorRecord`.  The dict branch stores the HTTP status code in both `status`
and `reason` and the whole response in `text`; the HTTP branch stores status
code, reason phrase, and body text. -/
def Filebase.handle_error : HEInput → ErrorRecord
  | .dict r =>
      { status := r.ResponseMetadata.HTTPStatusCode
        reason := .ofNat r.ResponseMetadata.HTTPStatusCode
        text := .ofResp r }
  | .httpResp r =>
      { status := r.status_code
        reason := .ofStr r.reason
        text := .ofStr r.text }

/-- One object-store protocol call, with the exact arguments the client
passes to `self.s3`. -/
inductive S3Request where
  | create_bucket (Bucket : String)
  | list_buckets
  | put_object (Body : Bytes) (Bucket : String) (Key : String)
  | delete_object (Bucket : String) (Key : String)
deriving DecidableEq, Repr

/-- One backend call observable from outside the client: an object-store
call, or an HTTP GET with its URL and headers. -/
inductive BackendCall where
  | s3 (req : S3Request)
  | httpGet (url : String) (headers : Headers)
deriving DecidableEq, Repr

/-- The external world: the filesystem (`open(path, 'rb')`), the object-store
backend, and the HTTP backend.  `.error` means the call raised. -/
structure Env where
  openFile : String → Except Exn Bytes
  s3 : S3Request → Except Exn S3Response
  httpGet : String → Headers → Except Exn HttpResponse

/-- The union of values a `Filebase` method can return: a raw response dict,
a bucket-descriptor list, a content-identifier string, a parsed JSON body, a
normalized error record, or a caught exception. -/
inductive PyResult where
  | s3resp (r : S3Response)
  | buckets (bs : List S3Bucket)
  | cid (s : String)
  | json (j : Json)
  | err (e : ErrorRecord)
  | exn (e : Exn)

/-- Python dict lookup on a headers dict (`KeyError` when absent is handled
at each use site). -/
def dictGet (hs : Headers) (k : String) : Option String := hs.lookup k

/-! ### The six operations

Each returns the backend calls it issued together with its result value. -/

/-- `create_bucket`: one `create_bucket` backend call on the lowercased name;
the full response on status 200, `handle_error` otherwise, the caught
exception if the call raised. -/
def Filebase.create_bucket (c : Filebase) (env : Env) (name : String) :
    List BackendCall × PyResult :=
  let req := S3Request.create_bucket (pyLower name)
  ([.s3 req],
   match env.s3 req with
   | .error e => .exn e
   | .ok response =>
       if response.ResponseMetadata.HTTPStatusCode = 200 then .s3resp response
       else .err (Filebase.handle_error (.dict response)))

/-- `list_buckets`: one `list_buckets` backend call; the `'Buckets'` list on
status 200, `handle_error` otherwise, the caught exception if it raised. -/
def Filebase.list_buckets (c : Filebase) (env : Env) :
    List BackendCall × PyResult :=
  ([.s3 .list_buckets],
   match env.s3 .list_buckets with
   | .error e => .exn e
   | .ok response =>
       if response.ResponseMetadata.HTTPStatusCode = 200 then .buckets response.Buckets
       else .err (Filebase.handle_error (.dict response)))

/-- `upload_object`: open the file (an `OSError` is caught and returned),
then one `put_object` call with the file body, the lowercased bucket and the
verbatim key; on status 200 the `x-amz-meta-cid` response header (a missing
header raises `KeyError`, caught and returned), else `handle_error`. -/
def Filebase.upload_object (c : Filebase) (env : Env)
    (path_to_file name bucket : String) : List BackendCall × PyResult :=
  match env.openFile path_to_file with
  | .error e => ([], .exn e)
  | .ok file =>
      let req := S3Request.put_object file (pyLower bucket) name
      ([.s3 req],
       match env.s3 req with
       | .error e => .exn e
       | .ok response =>
           if response.ResponseMetadata.HTTPStatusCode = 200 then
             match dictGet response.ResponseMetadata.HTTPHeaders "x-amz-meta-cid" with
             | some cid => .cid cid
             | none => .exn (.keyError "x-amz-meta-cid")
           else .err (Filebase.handle_error (.dict response)))

/-- `delete_object`: one `delete_object` call with the lowercased bucket and
verbatim key; the full response on status 200, `handle_error` otherwise, the
caught exception if it raised. -/
def Filebase.delete_object (c : Filebase) (env : Env) (name bucket : String) :
    List BackendCall × PyResult :=
  let req := S3Request.delete_object (pyLower bucket) name
  ([.s3 req],
   match env.s3 req with
   | .error e => .exn e
   | .ok response =>
       if response.ResponseMetadata.HTTPStatusCode = 200 then .s3resp response
       else .err (Filebase.handle_error (.dict response)))

/-- `upload_metadata`: serialize `data` with `json.dumps(data, indent=4)`,
UTF-8 encode it, then one `put_object` call with that body, the lowercased
bucket and the verbatim key; response handling as in `upload_object`. -/
def Filebase.upload_metadata (c : Filebase) (env : Env)
    (data : Json) (name bucket : String) : List BackendCall × PyResult :=
  let encoded_metadata := utf8Encode (dumpsTop data)
  let req := S3Request.put_object encoded_metadata (pyLower bucket) name
  ([.s3 req],
   match env.s3 req with
   | .error e => .exn e
   | .ok response =>
       if response.ResponseMetadata.HTTPStatusCode = 200 then
         match dictGet response.ResponseMetadata.HTTPHeaders "x-amz-meta-cid" with
         | some cid => .cid cid
         | none => .exn (.keyError "x-amz-meta-cid")
       else .err (Filebase.handle_error (.dict response)))

/-- The bearer token of the pin-status request:
`base64.b64encode(bytes(f"{api_key}:{secret_key}:{bucket}", 'utf-8'))`, the
bucket verbatim (the source does not lowercase it here). -/
def pinAuthToken (c : Filebase) (bucket : String) : String :=
  b64encode (utf8Encode
    (c.filebase_api_key ++ ":" ++ c.filebase_secret_api_key ++ ":" ++ bucket).data)

/-- The headers dict of the pin-status request: the bearer Authorization
header built first, then `Content-Type` added to the same dict. -/
def pinHeaders (c : Filebase) (bucket : String) : Headers :=
  [("Authorization", "Bearer " ++ pinAuthToken c bucket),
   ("Content-Type", "application/json")]

/-- The pin-status URL: `API_ENDPOINT + "ipfs/pins"`. -/
def pinUrl : String := API_ENDPOINT ++ "ipfs/pins"

/-- `list_pinned_objects`: issue one GET to `pinUrl` with the bearer
Authorization and Content-Type headers; on `response.ok` the parsed JSON
body (a decode failure raises `json.JSONDecodeError`, caught and returned),
else `handle_error`; a raised request exception is caught and returned. -/
def Filebase.list_pinned_objects (c : Filebase) (env : Env) (bucket : String) :
    List BackendCall × PyResult :=
  ([.httpGet pinUrl (pinHeaders c bucket)],
   match env.httpGet pinUrl (pinHeaders c bucket) with
   | .error e => .exn e
   | .ok response =>
       if response.ok then
         match loadsTop response.text with
         | some j => .json j
         | none => .exn (.jsonDecodeError response.text)
       else .err (Filebase.handle_error (.httpResp response)))

/-! ### Sequences of calls on one session object

The class assigns attributes only in `__init__`, so a method call leaves the
session object itself unchanged; `callOp` makes the (identity) state
transition explicit and `runSeq` folds it over a call sequence. -/

/-- One method invocation with its arguments. -/
inductive OpCall where
  | create_bucket (name : String)
  | list_buckets
  | upload_object (path_to_file name bucket : String)
  | delete_object (name bucket : String)
  | upload_metadata (data : Json) (name bucket : String)
  | list_pinned_objects (bucket : String)

/-- Run one method call: the post-state of the session object together with
the calls issued and the returned value.  No method assigns to `self`, so
the post-state is the receiver. -/
def Filebase.callOp (c : Filebase) (env : Env) :
    OpCall → Filebase × List BackendCall × PyResult
  | .create_bucket name => (c, c.create_bucket env name)
  | .list_buckets => (c, c.list_buckets env)
  | .upload_object p n b => (c, c.upload_object env p n b)
  | .delete_object n b => (c, c.delete_object env n b)
  | .upload_metadata d n b => (c, c.upload_metadata env d n b)
  | .list_pinned_objects b => (c, c.list_pinned_objects env b)

/-- The session object after a sequence of method calls. -/
def Filebase.runSeq (c : Filebase) (env : Env) : List OpCall → Filebase
  | [] => c
  | op :: ops => ((c.callOp env op).1).runSeq env ops


/-! ### Concrete environments and a concrete session, used by witnesses -/

/-- A session object with concrete credentials. -/
def fb0 : Filebase := Filebase.init "k" "s"

/-- An object-store response: status 200 with the content-identifier header. -/
def respOkCid : S3Response :=
  { ResponseMetadata := { HTTPStatusCode := 200
                          HTTPHeaders := [("x-amz-meta-cid", "QmCID")] }
    Buckets := [] }

/-- An object-store response: status 200 but no content-identifier header. -/
def respNoCid : S3Response :=
  { ResponseMetadata := { HTTPStatusCode := 200, HTTPHeaders := [] }, Buckets := [] }

/-- An HTTP 500 response from the pin-status backend. -/
def resp500 : HttpResponse :=
  { status_code := 500, reason := "Internal Server Error", text := "oops" }

/-- An HTTP 200 response whose body is not valid JSON. -/
def respBadJson : HttpResponse :=
  { status_code := 200, reason := "OK", text := "not json" }

/-- A world in which every external step raises. -/
def envRaise : Env :=
  { openFile := fun _ => .error (.ioError "ENOENT")
    s3 := fun _ => .error (.clientError "boom")
    httpGet := fun _ _ => .error (.clientError "conn") }

/-- A world in which every external step succeeds. -/
def envOk : Env :=
  { openFile := fun _ => .ok [104, 105]
    s3 := fun _ => .ok respOkCid
    httpGet := fun _ _ => .ok { status_code := 200, reason := "OK", text := "[]" } }

/-- A world whose object store omits the cid header and whose pin backend
returns a non-JSON body. -/
def envNoCid : Env :=
  { openFile := fun _ => .ok []
    s3 := fun _ => .ok respNoCid
    httpGet := fun _ _ => .ok respBadJson }

/-- A world whose pin backend returns HTTP 500. -/
def env500 : Env :=
  { openFile := fun _ => .ok []
    s3 := fun _ => .ok respOkCid
    httpGet := fun _ _ => .ok resp500 }

/-! ### Round-trip lemmas: `json.loads` inverts `json.dumps`

The structure follows the usual codec-inverse development: digit and
escape inverses first, then whitespace absorption and head-character
lemmas, then a mutual induction over the rendered value. -/

theorem digit_char_spec (k : Nat) (h : k < 10) :
    isDigit (Char.ofNat (48 + k)) = true ∧ (Char.ofNat (48 + k)).toNat = 48 + k := by
  interval_cases k <;> exact ⟨by decide, by decide⟩

theorem natDigits_ne_nil (n : Nat) : natDigits n ≠ [] := by
  rw [natDigits]
  split <;> simp

theorem natDigits_all_digits (n : Nat) : ∀ c ∈ natDigits n, isDigit c = true := by
  induction n using Nat.strongRecOn with
  | _ n ih =>
    rw [natDigits]
    split
    · intro c hc
      rw [List.mem_singleton] at hc
      subst hc
      exact (digit_char_spec _ (Nat.mod_lt _ (by omega))).1
    · intro c hc
      rw [List.mem_append] at hc
      rcases hc with hc | hc
      · exact ih (n / 10) (by omega) c hc
      · rw [List.mem_singleton] at hc
        subst hc
        exact (digit_char_spec _ (Nat.mod_lt _ (by omega))).1

theorem digitsToNat_natDigits (n : Nat) : digitsToNat (natDigits n) = n := by
  induction n using Nat.strongRecOn with
  | _ n ih =>
    rw [natDigits]
    split
    · rename_i h
      simp only [digitsToNat, List.foldl_cons, List.foldl_nil, Nat.zero_mul, Nat.zero_add]
      rw [(digit_char_spec _ (Nat.mod_lt _ (by omega))).2]
      omega
    · rename_i h
      simp only [digitsToNat, List.foldl_append, List.foldl_cons, List.foldl_nil]
      have := ih (n / 10) (by omega)
      simp only [digitsToNat] at this
      rw [this, (digit_char_spec _ (Nat.mod_lt _ (by omega))).2]
      omega

theorem natDigits_head (n : Nat) : ∃ c t, natDigits n = c :: t ∧ isDigit c = true := by
  match h : natDigits n with
  | [] => exact absurd h (natDigits_ne_nil n)
  | c :: t => exact ⟨c, t, rfl, natDigits_all_digits n c (h ▸ List.mem_cons_self ..)⟩

theorem takeDigits_not_digit (c : Char) (t : List Char) (h : isDigit c = false) :
    takeDigits (c :: t) = ([], c :: t) := by
  unfold takeDigits
  simp [h]

theorem takeDigits_stop (cs : List Char) (h : numDelim cs = true) :
    takeDigits cs = ([], cs) := by
  cases cs with
  | nil => rfl
  | cons c t =>
      refine takeDigits_not_digit c t ?_
      simp only [numDelim, Bool.not_eq_true', Bool.or_eq_false_iff] at h
      exact h.2

theorem takeDigits_run (ds rest : List Char) (hall : ∀ x ∈ ds, isDigit x = true)
    (hstop : takeDigits rest = ([], rest)) : takeDigits (ds ++ rest) = (ds, rest) := by
  induction ds with
  | nil => simpa using hstop
  | cons d ds ih =>
      have hd := hall d (List.mem_cons_self ..)
      have htail := ih fun x hx => hall x (List.mem_cons_of_mem _ hx)
      simp [takeDigits, hd, htail]

theorem digit_not_ws {c : Char} (h : isDigit c = true) : isWs c = false := by
  cases hb : isWs c
  · rfl
  · exfalso
    simp only [isWs, Bool.or_eq_true, beq_iff_eq] at hb
    rcases hb with ((rfl | rfl) | rfl) | rfl <;> revert h <;> decide

theorem digit_char_facts {c : Char} (h : isDigit c = true) :
    c ≠ '-' ∧ c ≠ '.' ∧ c ≠ 'e' ∧ c ≠ 'E' ∧ isWs c = false ∧ c ≠ ']' ∧ c ≠ '}' ∧
    c ≠ 'n' ∧ c ≠ 't' ∧ c ≠ 'f' ∧ c ≠ '"' ∧ c ≠ '[' ∧ c ≠ '{' :=
  ⟨fun hc => by subst hc; revert h; decide,
   fun hc => by subst hc; revert h; decide,
   fun hc => by subst hc; revert h; decide,
   fun hc => by subst hc; revert h; decide,
   digit_not_ws h,
   fun hc => by subst hc; revert h; decide,
   fun hc => by subst hc; revert h; decide,
   fun hc => by subst hc; revert h; decide,
   fun hc => by subst hc; revert h; decide,
   fun hc => by subst hc; revert h; decide,
   fun hc => by subst hc; revert h; decide,
   fun hc => by subst hc; revert h; decide,
   fun hc => by subst hc; revert h; decide⟩

theorem numDelim_head (c : Char) (t : List Char) (h : numDelim (c :: t) = true) :
    isDigit c = false ∧ c ≠ '.' ∧ c ≠ 'e' ∧ c ≠ 'E' := by
  have h2 : (c == '.' || c == 'e' || c == 'E' || isDigit c) = false := by
    simpa [numDelim] using h
  simp only [Bool.or_eq_false_iff, beq_eq_false_iff_ne] at h2
  exact ⟨h2.2, h2.1.1.1, h2.1.1.2, h2.1.2⟩

theorem parseIntTok_intChars (i : Int) (rest : List Char) (hr : numDelim rest = true) :
    parseIntTok (intChars i ++ rest) = some (i, rest) := by
  by_cases hm : i < 0
  · have habs : (i.natAbs : Int) = -i := by
      rw [← Int.natAbs_neg]
      exact Int.natAbs_of_nonneg (by omega)
    have harg : intChars i ++ rest = '-' :: (natDigits i.natAbs ++ rest) := by
      simp [intChars, hm]
    rw [harg]
    simp only [parseIntTok]
    rw [takeDigits_run _ _ (natDigits_all_digits _) (takeDigits_stop _ hr)]
    rw [if_neg (by simp [natDigits_ne_nil])]
    cases rest with
    | nil => simp [digitsToNat_natDigits, habs]
    | cons c t =>
        obtain ⟨hd, hdot, he, hE⟩ := numDelim_head _ _ hr
        simp [hdot, he, hE, digitsToNat_natDigits, habs]
  · have habs : (i.natAbs : Int) = i := Int.natAbs_of_nonneg (by omega)
    obtain ⟨c0, t0, h0, hc0⟩ := natDigits_head i.natAbs
    have hfacts := digit_char_facts hc0
    have harg : intChars i ++ rest = c0 :: (t0 ++ rest) := by
      simp [intChars, hm, h0]
    rw [harg]
    simp only [parseIntTok]
    have htd : takeDigits (c0 :: (t0 ++ rest)) = (c0 :: t0, rest) := by
      have := takeDigits_run _ _ (natDigits_all_digits i.natAbs) (takeDigits_stop _ hr)
      rwa [h0, List.cons_append] at this
    have hdi : digitsToNat (c0 :: t0) = i.natAbs := by
      have := digitsToNat_natDigits i.natAbs
      rwa [h0] at this
    cases rest with
    | nil =>
        rw [List.append_nil] at htd
        simp [hfacts.1, htd, hdi, habs]
    | cons c t =>
        obtain ⟨hd, hdot, he, hE⟩ := numDelim_head _ _ hr
        simp [hfacts.1, htd, hdi, hdot, he, hE, habs]

/-! ### String-escape inverses -/

theorem hexVal_hexDigit (d : Nat) (h : d < 16) : hexVal (hexDigit d) = some d := by
  interval_cases d <;> decide

theorem hex4_of_uEsc (n : Nat) (h : n < 0x10000) :
    hex4 (hexDigit (n / 4096 % 16)) (hexDigit (n / 256 % 16))
      (hexDigit (n / 16 % 16)) (hexDigit (n % 16)) = some n := by
  have h16 : ∀ k : Nat, k % 16 < 16 := fun k => Nat.mod_lt _ (by omega)
  simp only [hex4, hexVal_hexDigit _ (h16 _)]
  congr 1
  omega

theorem char_valid_range (c : Char) :
    c.toNat < 0xD800 ∨ (0xDFFF < c.toNat ∧ c.toNat < 0x110000) := c.valid

theorem parseStrAux_quote (acc rest : List Char) :
    parseStrAux acc ('"' :: rest) = some (acc.reverse, rest) := rfl

set_option maxHeartbeats 1600000 in
theorem parseStrAux_u (acc : List Char) (a b c2 d : Char) (rest : List Char) (n : Nat)
    (hhex : hex4 a b c2 d = some n)
    (hn1 : ¬(0xD800 ≤ n ∧ n ≤ 0xDBFF)) (hn2 : ¬(0xDC00 ≤ n ∧ n ≤ 0xDFFF)) :
    parseStrAux acc ('\\' :: 'u' :: a :: b :: c2 :: d :: rest)
      = parseStrAux (Char.ofNat n :: acc) rest := by
  simp only [parseStrAux, hhex]
  rw [if_neg hn1, if_neg hn2]

set_option maxHeartbeats 1600000 in
theorem parseStrAux_pair (acc : List Char) (a b c2 d a2 b2 c3 d2 : Char)
    (rest : List Char) (n m : Nat)
    (hhex : hex4 a b c2 d = some n) (hn : 0xD800 ≤ n ∧ n ≤ 0xDBFF)
    (hhex2 : hex4 a2 b2 c3 d2 = some m) (hm : 0xDC00 ≤ m ∧ m ≤ 0xDFFF) :
    parseStrAux acc
        ('\\' :: 'u' :: a :: b :: c2 :: d :: '\\' :: 'u' :: a2 :: b2 :: c3 :: d2 :: rest)
      = parseStrAux (Char.ofNat (0x10000 + (n - 0xD800) * 0x400 + (m - 0xDC00)) :: acc)
          rest := by
  simp only [parseStrAux, hhex]
  rw [if_pos hn]
  simp only [hhex2]
  rw [if_pos hm]

set_option maxHeartbeats 1000000 in
theorem parseStrAux_plain (acc : List Char) (c : Char) (rest : List Char)
    (h1 : c ≠ '"') (h2 : c ≠ '\\') (h3 : ¬(c.toNat < 0x20)) :
    parseStrAux acc (c :: rest) = parseStrAux (c :: acc) rest := by
  rw [parseStrAux.eq_def]
  split <;> simp_all

theorem parseStrAux_escChar (c : Char) (acc rest : List Char) :
    parseStrAux acc (escChar c ++ rest) = parseStrAux (c :: acc) rest := by
  by_cases h1 : c = '"'
  · subst h1
    rw [show escChar '"' = ['\\', '"'] from by decide]
    rfl
  by_cases h2 : c = '\\'
  · subst h2
    rw [show escChar '\\' = ['\\', '\\'] from by decide]
    rfl
  by_cases h3 : c = '\n'
  · subst h3
    rw [show escChar '\n' = ['\\', 'n'] from by decide]
    rfl
  by_cases h4 : c = '\r'
  · subst h4
    rw [show escChar '\r' = ['\\', 'r'] from by decide]
    rfl
  by_cases h5 : c = '\t'
  · subst h5
    rw [show escChar '\t' = ['\\', 't'] from by decide]
    rfl
  by_cases h6 : c.toNat = 0x08
  · have hc : Char.ofNat 0x08 = c := by rw [← h6, Char.ofNat_toNat]
    simp only [escChar, if_neg h1, if_neg h2, if_neg h3, if_neg h4, if_neg h5, if_pos h6,
      List.cons_append, List.nil_append]
    rw [show ∀ r, parseStrAux acc ('\\' :: 'b' :: r)
          = parseStrAux (Char.ofNat 0x08 :: acc) r from fun r => rfl, hc]
  by_cases h7 : c.toNat = 0x0C
  · have hc : Char.ofNat 0x0C = c := by rw [← h7, Char.ofNat_toNat]
    simp only [escChar, if_neg h1, if_neg h2, if_neg h3, if_neg h4, if_neg h5,
      if_neg h6, if_pos h7, List.cons_append, List.nil_append]
    rw [show ∀ r, parseStrAux acc ('\\' :: 'f' :: r)
          = parseStrAux (Char.ofNat 0x0C :: acc) r from fun r => rfl, hc]
  by_cases h8 : 0x20 ≤ c.toNat ∧ c.toNat ≤ 0x7E
  · simp only [escChar, if_neg h1, if_neg h2, if_neg h3, if_neg h4, if_neg h5,
      if_neg h6, if_neg h7, if_pos h8, List.singleton_append]
    exact parseStrAux_plain acc c rest h1 h2 (by omega)
  by_cases h9 : c.toNat < 0x10000
  · have hval := char_valid_range c
    have hns1 : ¬(0xD800 ≤ c.toNat ∧ c.toNat ≤ 0xDBFF) := by omega
    have hns2 : ¬(0xDC00 ≤ c.toNat ∧ c.toNat ≤ 0xDFFF) := by omega
    simp only [escChar, if_neg h1, if_neg h2, if_neg h3, if_neg h4, if_neg h5,
      if_neg h6, if_neg h7, if_neg h8, if_pos h9, uEsc, List.cons_append]
    rw [parseStrAux_u _ _ _ _ _ _ _ (hex4_of_uEsc _ h9) hns1 hns2, Char.ofNat_toNat,
      List.nil_append]
  · have hval := char_valid_range c
    have hlt : c.toNat < 0x110000 := by omega
    have hmod := Nat.mod_lt (c.toNat - 0x10000) (show 0 < 0x400 from by omega)
    have hdiv : (c.toNat - 0x10000) / 0x400 < 0x400 := by omega
    have hhi : 0xD800 + (c.toNat - 0x10000) / 0x400 < 0x10000 := by omega
    have hlo : 0xDC00 + (c.toNat - 0x10000) % 0x400 < 0x10000 := by omega
    have hps1 : 0xD800 ≤ 0xD800 + (c.toNat - 0x10000) / 0x400 ∧
        0xD800 + (c.toNat - 0x10000) / 0x400 ≤ 0xDBFF := by omega
    have hps2 : 0xDC00 ≤ 0xDC00 + (c.toNat - 0x10000) % 0x400 ∧
        0xDC00 + (c.toNat - 0x10000) % 0x400 ≤ 0xDFFF := by omega
    have harith :
        0x10000 + (0xD800 + (c.toNat - 0x10000) / 0x400 - 0xD800) * 0x400 +
          (0xDC00 + (c.toNat - 0x10000) % 0x400 - 0xDC00) = c.toNat := by
      have hdm := Nat.div_add_mod (c.toNat - 0x10000) 0x400
      omega
    simp only [escChar, if_neg h1, if_neg h2, if_neg h3, if_neg h4, if_neg h5,
      if_neg h6, if_neg h7, if_neg h8, if_neg h9, uEsc, List.cons_append,
      List.append_assoc, List.nil_append]
    rw [parseStrAux_pair _ _ _ _ _ _ _ _ _ _ _ _
          (hex4_of_uEsc _ hhi) hps1 (hex4_of_uEsc _ hlo) hps2, harith, Char.ofNat_toNat]

theorem parseStrAux_flat (cs acc rest : List Char) :
    parseStrAux acc (cs.flatMap escChar ++ '"' :: rest) = some (acc.reverse ++ cs, rest) := by
  induction cs generalizing acc with
  | nil =>
      rw [List.flatMap_nil, List.nil_append, parseStrAux_quote]
      simp
  | cons c cs ih =>
      rw [List.flatMap_cons, List.append_assoc, parseStrAux_escChar, ih]
      simp

theorem parseStr_renderStr (s : String) (rest : List Char) :
    parseStr (s.data.flatMap escChar ++ '"' :: rest) = some (s, rest) := by
  obtain ⟨d⟩ := s
  rw [parseStr, parseStrAux_flat]
  simp

/-! ### Whitespace absorption and head characters of rendered values -/

theorem skipWs_cons_ws {c : Char} (h : isWs c = true) (t : List Char) :
    skipWs (c :: t) = skipWs t := by
  simp [skipWs, h]

theorem skipWs_cons_not {c : Char} (h : isWs c = false) (t : List Char) :
    skipWs (c :: t) = c :: t := by
  simp [skipWs, h]

theorem skipWs_spaces (k : Nat) (x : List Char) : skipWs (spaces k ++ x) = skipWs x := by
  induction k with
  | zero => simp [spaces]
  | succ k ih =>
      rw [spaces, List.replicate_succ, List.cons_append, skipWs_cons_ws (by decide)]
      exact ih

theorem skipWs_nlIndent (k : Nat) (x : List Char) :
    skipWs (nlIndent k ++ x) = skipWs x := by
  rw [nlIndent, List.cons_append, skipWs_cons_ws (by decide)]
  exact skipWs_spaces _ _

theorem dumpsVal_head (ind : Nat) (j : Json) :
    ∃ c t, dumpsVal ind j = c :: t ∧ isWs c = false ∧ c ≠ ']' ∧ c ≠ '}' := by
  cases j with
  | int i =>
      by_cases hm : i < 0
      · refine ⟨'-', natDigits i.natAbs, by simp [dumpsVal, intChars, hm], ?_, ?_, ?_⟩ <;>
          decide
      · obtain ⟨c0, t0, h0, hc0⟩ := natDigits_head i.natAbs
        have hfacts := digit_char_facts hc0
        exact ⟨c0, t0, by simp [dumpsVal, intChars, hm, h0], digit_not_ws hc0,
          hfacts.2.2.2.2.2.1, hfacts.2.2.2.2.2.2.1⟩
  | null => refine ⟨'n', _, rfl, ?_, ?_, ?_⟩ <;> decide
  | bool b =>
      cases b with
      | false => refine ⟨'f', _, rfl, ?_, ?_, ?_⟩ <;> decide
      | true => refine ⟨'t', _, rfl, ?_, ?_, ?_⟩ <;> decide
  | str s => refine ⟨'"', _, rfl, ?_, ?_, ?_⟩ <;> decide
  | arr xs =>
      cases xs with
      | nil => refine ⟨'[', _, rfl, ?_, ?_, ?_⟩ <;> decide
      | cons e es => refine ⟨'[', _, rfl, ?_, ?_, ?_⟩ <;> decide
  | obj ms =>
      cases ms with
      | nil => refine ⟨'{', _, rfl, ?_, ?_, ?_⟩ <;> decide
      | cons m ms => refine ⟨'{', _, rfl, ?_, ?_, ?_⟩ <;> decide

theorem skipWs_dumpsVal (ind : Nat) (j : Json) (x : List Char) :
    skipWs (dumpsVal ind j ++ x) = dumpsVal ind j ++ x := by
  obtain ⟨c, t, hren, hws, _, _⟩ := dumpsVal_head ind j
  rw [hren, List.cons_append, skipWs_cons_not hws]

theorem skipWs_dumpsMember (ind : Nat) (m : String × Json) (x : List Char) :
    skipWs (dumpsMember ind m ++ x) = dumpsMember ind m ++ x := by
  obtain ⟨k, v⟩ := m
  simp only [dumpsMember, renderStr, List.cons_append, List.append_assoc]
  rw [skipWs_cons_not (by decide)]

theorem dumpsVal_length_pos (ind : Nat) (j : Json) : 0 < (dumpsVal ind j).length := by
  obtain ⟨c, t, hren, _, _, _⟩ := dumpsVal_head ind j
  simp [hren]

theorem nlIndent_length (k : Nat) : (nlIndent k).length = 4 * k + 1 := by
  simp [nlIndent, spaces]

/-! ### One-step unfoldings of the reader at successor fuel -/

theorem pv_null (f : Nat) (r : List Char) :
    parseVal (f + 1) ('n' :: 'u' :: 'l' :: 'l' :: r) = some (.null, r) := rfl

theorem pv_true (f : Nat) (r : List Char) :
    parseVal (f + 1) ('t' :: 'r' :: 'u' :: 'e' :: r) = some (.bool true, r) := rfl

theorem pv_false (f : Nat) (r : List Char) :
    parseVal (f + 1) ('f' :: 'a' :: 'l' :: 's' :: 'e' :: r) = some (.bool false, r) := rfl

theorem pv_quote (f : Nat) (r : List Char) :
    parseVal (f + 1) ('"' :: r) =
      (match parseStr r with
       | some (s, r1) => some (.str s, r1)
       | none => none) := rfl

theorem pv_lbracket (f : Nat) (R : List Char) :
    parseVal (f + 1) ('[' :: R) =
      (match skipWs R with
       | [] => none
       | c :: r1 =>
           if c = ']' then some (.arr [], r1)
           else match parseElems f (c :: r1) with
                | some (es, r2) => some (.arr es, r2)
                | none => none) := rfl

theorem pv_lbrace (f : Nat) (R : List Char) :
    parseVal (f + 1) ('{' :: R) =
      (match skipWs R with
       | [] => none
       | c :: r1 =>
           if c = '}' then some (.obj [], r1)
           else match parseMembers f (c :: r1) with
                | some (ms, r2) => some (.obj ms, r2)
                | none => none) := rfl

theorem pe_succ (f : Nat) (cs : List Char) :
    parseElems (f + 1) cs =
      (match parseVal f cs with
       | none => none
       | some (v, r) =>
           match skipWs r with
           | ',' :: r1 =>
               (match parseElems f (skipWs r1) with
                | some (vs, r2) => some (v :: vs, r2)
                | none => none)
           | ']' :: r1 => some ([v], r1)
           | _ => none) := rfl

theorem pm_succ (f : Nat) (cs : List Char) :
    parseMembers (f + 1) cs =
      (match skipWs cs with
       | '"' :: r =>
           match parseStr r with
           | none => none
           | some (key, r1) =>
               match skipWs r1 with
               | ':' :: r2 =>
                   match parseVal f (skipWs r2) with
                   | none => none
                   | some (v, r3) =>
                       match skipWs r3 with
                       | ',' :: r4 =>
                           match parseMembers f (skipWs r4) with
                           | some (ms, r5) => some ((key, v) :: ms, r5)
                           | none => none
                       | '}' :: r4 => some ([(key, v)], r4)
                       | _ => none
               | _ => none
       | _ => none) := rfl

theorem numDelim_of_head {c : Char} (t : List Char)
    (h : (c == '.' || c == 'e' || c == 'E' || isDigit c) = false) :
    numDelim (c :: t) = true := by
  simp [numDelim, h]

set_option maxHeartbeats 1600000 in
theorem parseVal_fallthrough (f : Nat) (x : Char) (tl : List Char)
    (hxw : isWs x = false) (hx1 : x ≠ 'n') (hx2 : x ≠ 't') (hx3 : x ≠ 'f')
    (hx4 : x ≠ '"') (hx5 : x ≠ '[') (hx6 : x ≠ '{')
    (hx7 : (x == '-' || isDigit x) = true) :
    parseVal (f + 1) (x :: tl) =
      (match parseIntTok (x :: tl) with
       | some (i, r) => some (Json.int i, r)
       | none => none) := by
  have hstep : parseVal (f + 1) (x :: tl) =
      (match skipWs (x :: tl) with
       | 'n' :: 'u' :: 'l' :: 'l' :: r => some (.null, r)
       | 't' :: 'r' :: 'u' :: 'e' :: r => some (.bool true, r)
       | 'f' :: 'a' :: 'l' :: 's' :: 'e' :: r => some (.bool false, r)
       | '"' :: r =>
           match parseStr r with
           | some (s, r1) => some (.str s, r1)
           | none => none
       | '[' :: r =>
           match skipWs r with
           | [] => none
           | c :: r1 =>
               if c = ']' then some (.arr [], r1)
               else
                 match parseElems f (c :: r1) with
                 | some (es, r2) => some (.arr es, r2)
                 | none => none
       | '{' :: r =>
           match skipWs r with
           | [] => none
           | c :: r1 =>
               if c = '}' then some (.obj [], r1)
               else
                 match parseMembers f (c :: r1) with
                 | some (ms, r2) => some (.obj ms, r2)
                 | none => none
       | c :: r =>
           if c == '-' || isDigit c then
             match parseIntTok (c :: r) with
             | some (i, r1) => some (.int i, r1)
             | none => none
           else none
       | [] => none) := rfl
  rw [hstep, skipWs_cons_not hxw]
  split <;> (try simp_all) <;> (intro h1 h2; rcases hx7 with h3 | h3 <;> simp_all)

theorem parseVal_int (i : Int) (f : Nat) (rest : List Char) (hr : numDelim rest = true) :
    parseVal (f + 1) (intChars i ++ rest) = some (.int i, rest) := by
  by_cases hm : i < 0
  · have harg : intChars i ++ rest = '-' :: (natDigits i.natAbs ++ rest) := by
      simp [intChars, hm]
    rw [harg, parseVal_fallthrough f '-' _ (by decide) (by decide) (by decide) (by decide)
          (by decide) (by decide) (by decide) (by decide), ← harg,
        parseIntTok_intChars i rest hr]
  · obtain ⟨c0, t0, h0, hc0⟩ := natDigits_head i.natAbs
    have hfacts := digit_char_facts hc0
    have harg : intChars i ++ rest = c0 :: (t0 ++ rest) := by
      simp [intChars, hm, h0]
    rw [harg, parseVal_fallthrough f c0 _ (digit_not_ws hc0) hfacts.2.2.2.2.2.2.2.1
          hfacts.2.2.2.2.2.2.2.2.1 hfacts.2.2.2.2.2.2.2.2.2.1 hfacts.2.2.2.2.2.2.2.2.2.2.1
          hfacts.2.2.2.2.2.2.2.2.2.2.2.1 hfacts.2.2.2.2.2.2.2.2.2.2.2.2 (by simp [hc0]),
        ← harg, parseIntTok_intChars i rest hr]

theorem dumpsMember_length (ind : Nat) (k : String) (v : Json) :
    (dumpsMember ind (k, v)).length = (renderStr k).length + 2 + (dumpsVal ind v).length := by
  simp only [dumpsMember, List.length_append, List.length_cons]
  omega

theorem dumpsMembers_cons_length (ind : Nat) (m2 : String × Json)
    (ms2 : List (String × Json)) :
    (dumpsMembers ind (m2 :: ms2)).length
      = 4 * ind + 2 + (dumpsMember ind m2).length + (dumpsMembers ind ms2).length := by
  simp only [dumpsMembers, List.length_cons, List.length_append, nlIndent_length]
  omega

/-! ### The round-trip induction -/

mutual
theorem rt_val : ∀ (j : Json) (ind fuel : Nat) (rest : List Char),
    (dumpsVal ind j).length < fuel → numDelim rest = true →
    parseVal fuel (dumpsVal ind j ++ rest) = some (j, rest)
  | .null, ind, fuel, rest, hf, _ => by
      cases fuel with
      | zero => simp [dumpsVal] at hf
      | succ f =>
          rw [show dumpsVal ind .null ++ rest = 'n' :: 'u' :: 'l' :: 'l' :: rest from rfl]
          exact pv_null f rest
  | .bool true, ind, fuel, rest, hf, _ => by
      cases fuel with
      | zero => simp [dumpsVal] at hf
      | succ f =>
          rw [show dumpsVal ind (.bool true) ++ rest = 't' :: 'r' :: 'u' :: 'e' :: rest from rfl]
          exact pv_true f rest
  | .bool false, ind, fuel, rest, hf, _ => by
      cases fuel with
      | zero => simp [dumpsVal] at hf
      | succ f =>
          rw [show dumpsVal ind (.bool false) ++ rest
                = 'f' :: 'a' :: 'l' :: 's' :: 'e' :: rest from rfl]
          exact pv_false f rest
  | .int i, ind, fuel, rest, hf, hr => by
      cases fuel with
      | zero => exact absurd hf (Nat.not_lt_zero _)
      | succ f => exact parseVal_int i f rest hr
  | .str s, ind, fuel, rest, hf, _ => by
      cases fuel with
      | zero => exact absurd hf (Nat.not_lt_zero _)
      | succ f =>
          have harg : dumpsVal ind (.str s) ++ rest
              = '"' :: (s.data.flatMap escChar ++ '"' :: rest) := by
            simp [dumpsVal, renderStr]
          rw [harg, pv_quote, parseStr_renderStr]
  | .arr [], ind, fuel, rest, hf, _ => by
      cases fuel with
      | zero => simp [dumpsVal] at hf
      | succ f =>
          rw [show dumpsVal ind (.arr []) ++ rest = '[' :: (']' :: rest) from rfl, pv_lbracket,
              skipWs_cons_not (by decide)]
          rfl
  | .arr (e :: es), ind, fuel, rest, hf, _ => by
      cases fuel with
      | zero => exact absurd hf (Nat.not_lt_zero _)
      | succ f =>
          obtain ⟨c, t, hren, hws, hbr, _⟩ := dumpsVal_head (ind + 1) e
          have harg : dumpsVal ind (.arr (e :: es)) ++ rest
              = '[' :: (nlIndent (ind + 1) ++ (dumpsVal (ind + 1) e ++
                  (dumpsElems (ind + 1) es ++ (nlIndent ind ++ (']' :: rest))))) := by
            simp [dumpsVal, List.append_assoc]
          have hfe : (dumpsVal (ind + 1) e).length + (dumpsElems (ind + 1) es).length + 1 < f := by
            simp only [dumpsVal, List.length_cons, List.length_append, nlIndent_length,
              List.length_singleton] at hf
            omega
          have key := rt_elems e es (ind + 1) ind f rest hfe
          have hsk : skipWs (nlIndent (ind + 1) ++ (dumpsVal (ind + 1) e ++
                (dumpsElems (ind + 1) es ++ (nlIndent ind ++ (']' :: rest)))))
              = c :: (t ++ (dumpsElems (ind + 1) es ++ (nlIndent ind ++ (']' :: rest)))) := by
            rw [skipWs_nlIndent, skipWs_dumpsVal, hren, List.cons_append]
          rw [harg]
          simp only [pv_lbracket, hsk]
          rw [if_neg hbr, ← List.cons_append, ← hren, key]
  | .obj [], ind, fuel, rest, hf, _ => by
      cases fuel with
      | zero => simp [dumpsVal] at hf
      | succ f =>
          rw [show dumpsVal ind (.obj []) ++ rest = '{' :: ('}' :: rest) from rfl, pv_lbrace,
              skipWs_cons_not (by decide)]
          rfl
  | .obj (m :: ms), ind, fuel, rest, hf, _ => by
      cases fuel with
      | zero => exact absurd hf (Nat.not_lt_zero _)
      | succ f =>
          have harg : dumpsVal ind (.obj (m :: ms)) ++ rest
              = '{' :: (nlIndent (ind + 1) ++ (dumpsMember (ind + 1) m ++
                  (dumpsMembers (ind + 1) ms ++ (nlIndent ind ++ ('}' :: rest))))) := by
            simp [dumpsVal, List.append_assoc]
          have hfm : (dumpsMember (ind + 1) m).length + (dumpsMembers (ind + 1) ms).length + 1
              < f := by
            simp only [dumpsVal, List.length_cons, List.length_append, nlIndent_length,
              List.length_singleton] at hf
            omega
          have key := rt_members m ms (ind + 1) ind f rest hfm
          obtain ⟨k, v⟩ := m
          have hmem : dumpsMember (ind + 1) (k, v) ++
                (dumpsMembers (ind + 1) ms ++ (nlIndent ind ++ ('}' :: rest)))
              = '"' :: (k.data.flatMap escChar ++ ('"' :: (':' :: (' ' :: (dumpsVal (ind + 1) v ++
                  (dumpsMembers (ind + 1) ms ++ (nlIndent ind ++ ('}' :: rest)))))))) := by
            simp [dumpsMember, renderStr, List.append_assoc]
          have hsk : skipWs (nlIndent (ind + 1) ++ (dumpsMember (ind + 1) (k, v) ++
                (dumpsMembers (ind + 1) ms ++ (nlIndent ind ++ ('}' :: rest)))))
              = '"' :: (k.data.flatMap escChar ++ ('"' :: (':' :: (' ' :: (dumpsVal (ind + 1) v ++
                  (dumpsMembers (ind + 1) ms ++ (nlIndent ind ++ ('}' :: rest)))))))) := by
            rw [skipWs_nlIndent, skipWs_dumpsMember, hmem]
          rw [harg]
          simp only [pv_lbrace, hsk]
          rw [if_neg (show ('"' : Char) ≠ '}' from by decide), ← hmem, key]
  termination_by j => sizeOf j
  decreasing_by all_goals (simp_wf <;> omega)
theorem rt_elems : ∀ (e : Json) (es : List Json) (ind iNl fuel : Nat) (rest : List Char),
    (dumpsVal ind e).length + (dumpsElems ind es).length + 1 < fuel →
    parseElems fuel
        (dumpsVal ind e ++ (dumpsElems ind es ++ (nlIndent iNl ++ (']' :: rest))))
      = some (e :: es, rest)
  | e, [], ind, iNl, fuel, rest, hf => by
      cases fuel with
      | zero => omega
      | succ f =>
          have hfe : (dumpsVal ind e).length < f := by
            simp only [dumpsElems, List.length_nil] at hf
            omega
          have hv := rt_val e ind f (nlIndent iNl ++ (']' :: rest)) hfe
            (numDelim_of_head _ (by decide))
          rw [show dumpsElems ind ([] : List Json) = [] from rfl, List.nil_append]
          simp only [pe_succ, hv, skipWs_nlIndent,
            skipWs_cons_not (show isWs ']' = false from by decide)]
  | e, x :: xs, ind, iNl, fuel, rest, hf => by
      cases fuel with
      | zero => omega
      | succ f =>
          simp only [dumpsElems, List.length_cons, List.length_append, nlIndent_length] at hf
          have hfe : (dumpsVal ind e).length < f := by omega
          have hfx : (dumpsVal ind x).length + (dumpsElems ind xs).length + 1 < f := by omega
          have harg : dumpsElems ind (x :: xs) ++ (nlIndent iNl ++ (']' :: rest))
              = ',' :: (nlIndent ind ++ (dumpsVal ind x ++
                  (dumpsElems ind xs ++ (nlIndent iNl ++ (']' :: rest))))) := by
            simp [dumpsElems, List.append_assoc]
          have hv := rt_val e ind f
            (',' :: (nlIndent ind ++ (dumpsVal ind x ++
              (dumpsElems ind xs ++ (nlIndent iNl ++ (']' :: rest)))))) hfe
            (numDelim_of_head _ (by decide))
          have hsk : skipWs (nlIndent ind ++ (dumpsVal ind x ++
                (dumpsElems ind xs ++ (nlIndent iNl ++ (']' :: rest)))))
              = dumpsVal ind x ++ (dumpsElems ind xs ++ (nlIndent iNl ++ (']' :: rest))) := by
            rw [skipWs_nlIndent, skipWs_dumpsVal]
          have key := rt_elems x xs ind iNl f rest hfx
          rw [harg]
          simp only [pe_succ, hv, skipWs_cons_not (show isWs ',' = false from by decide),
            hsk, key]
  termination_by e es => sizeOf e + sizeOf es
  decreasing_by all_goals (simp_wf <;> omega)
theorem rt_members : ∀ (m : String × Json) (ms : List (String × Json))
    (ind iNl fuel : Nat) (rest : List Char),
    (dumpsMember ind m).length + (dumpsMembers ind ms).length + 1 < fuel →
    parseMembers fuel
        (dumpsMember ind m ++ (dumpsMembers ind ms ++ (nlIndent iNl ++ ('}' :: rest))))
      = some (m :: ms, rest)
  | (k, v), [], ind, iNl, fuel, rest, hf => by
      cases fuel with
      | zero => omega
      | succ f =>
          have hfe : (dumpsVal ind v).length < f := by
            have hlen1 := dumpsMember_length ind k v
            simp only [dumpsMembers, List.length_nil] at hf
            omega
          have hv := rt_val v ind f (nlIndent iNl ++ ('}' :: rest)) hfe
            (numDelim_of_head _ (by decide))
          have hmem : dumpsMember ind (k, v) ++
                (dumpsMembers ind ([] : List (String × Json)) ++
                  (nlIndent iNl ++ ('}' :: rest)))
              = '"' :: (k.data.flatMap escChar ++ ('"' :: (':' :: (' ' :: (dumpsVal ind v ++
                  (nlIndent iNl ++ ('}' :: rest))))))) := by
            simp [dumpsMember, dumpsMembers, renderStr, List.append_assoc]
          rw [hmem]
          simp only [pm_succ, skipWs_cons_not (show isWs '"' = false from by decide),
            parseStr_renderStr, skipWs_cons_not (show isWs ':' = false from by decide),
            skipWs_cons_ws (show isWs ' ' = true from by decide), skipWs_dumpsVal, hv,
            skipWs_nlIndent, skipWs_cons_not (show isWs '}' = false from by decide)]
  | (k, v), (k2, v2) :: ms2, ind, iNl, fuel, rest, hf => by
      cases fuel with
      | zero => omega
      | succ f =>
          have hlen1 := dumpsMember_length ind k v
          have hlen2 := dumpsMembers_cons_length ind (k2, v2) ms2
          have hfe : (dumpsVal ind v).length < f := by omega
          have hfx : (dumpsMember ind (k2, v2)).length
              + (dumpsMembers ind ms2).length + 1 < f := by omega
          have hv := rt_val v ind f
            (',' :: (nlIndent ind ++ (dumpsMember ind (k2, v2) ++
              (dumpsMembers ind ms2 ++ (nlIndent iNl ++ ('}' :: rest)))))) hfe
            (numDelim_of_head _ (by decide))
          have key := rt_members (k2, v2) ms2 ind iNl f rest hfx
          have hsk : skipWs (nlIndent ind ++ (dumpsMember ind (k2, v2) ++
                (dumpsMembers ind ms2 ++ (nlIndent iNl ++ ('}' :: rest)))))
              = dumpsMember ind (k2, v2) ++
                  (dumpsMembers ind ms2 ++ (nlIndent iNl ++ ('}' :: rest))) := by
            rw [skipWs_nlIndent, skipWs_dumpsMember]
          have hmem : dumpsMember ind (k, v) ++
                (dumpsMembers ind ((k2, v2) :: ms2) ++ (nlIndent iNl ++ ('}' :: rest)))
              = '"' :: (k.data.flatMap escChar ++ ('"' :: (':' :: (' ' :: (dumpsVal ind v ++
                  (',' :: (nlIndent ind ++ (dumpsMember ind (k2, v2) ++
                    (dumpsMembers ind ms2 ++ (nlIndent iNl ++ ('}' :: rest))))))))))) := by
            simp [dumpsMember, dumpsMembers, renderStr, List.append_assoc]
          rw [hmem]
          simp only [pm_succ, skipWs_cons_not (show isWs '"' = false from by decide),
            parseStr_renderStr, skipWs_cons_not (show isWs ':' = false from by decide),
            skipWs_cons_ws (show isWs ' ' = true from by decide), skipWs_dumpsVal, hv,
            skipWs_cons_not (show isWs ',' = false from by decide), hsk, key]
  termination_by m ms => sizeOf m + sizeOf ms
  decreasing_by all_goals (simp_wf <;> omega)
end

/-- Parsing the full `json.dumps(data, indent=4)` text recovers `data`. -/
theorem loadsL_dumpsTop (j : Json) : loadsL (dumpsTop j) = some j := by
  rw [loadsL, dumpsTop]
  have hv := rt_val j 0 ((dumpsVal 0 j).length + 1) [] (by omega) rfl
  rw [List.append_nil] at hv
  rw [hv]
  simp [skipWs]

/-! ### UTF-8 round-trip -/

theorem utf8Decode_step (b : Nat) (rest : Bytes) :
    utf8Decode (b :: rest) =
      (if b < 0x80 then (utf8Decode rest).map (Char.ofNat b :: ·)
       else if b < 0xC2 then none
       else if b < 0xE0 then utf8Cont2 b rest
       else if b < 0xF0 then utf8Cont3 b rest
       else if b < 0xF5 then utf8Cont4 b rest
       else none) := rfl

theorem utf8Decode_one (b : Nat) (bs : Bytes) (h : b < 0x80) :
    utf8Decode (b :: bs) = (utf8Decode bs).map (Char.ofNat b :: ·) := by
  rw [utf8Decode_step, if_pos h]

theorem utf8Decode_two (b1 b2 : Nat) (bs : Bytes)
    (h1 : ¬ b1 < 0x80) (h2 : ¬ b1 < 0xC2) (h3 : b1 < 0xE0)
    (h4 : 0x80 ≤ b2 ∧ b2 < 0xC0) :
    utf8Decode (b1 :: b2 :: bs)
      = (utf8Decode bs).map (Char.ofNat ((b1 - 0xC0) * 64 + (b2 - 0x80)) :: ·) := by
  rw [utf8Decode_step, if_neg h1, if_neg h2, if_pos h3,
      show utf8Cont2 b1 (b2 :: bs)
        = (if 0x80 ≤ b2 ∧ b2 < 0xC0 then
             (utf8Decode bs).map (Char.ofNat ((b1 - 0xC0) * 64 + (b2 - 0x80)) :: ·)
           else none) from rfl,
      if_pos h4]

theorem utf8Decode_three (b1 b2 b3 : Nat) (bs : Bytes)
    (h1 : ¬ b1 < 0x80) (h2 : ¬ b1 < 0xC2) (h3 : ¬ b1 < 0xE0) (h4 : b1 < 0xF0)
    (hc : 0x80 ≤ b2 ∧ b2 < 0xC0 ∧ 0x80 ≤ b3 ∧ b3 < 0xC0)
    (hv : 0x800 ≤ (b1 - 0xE0) * 4096 + (b2 - 0x80) * 64 + (b3 - 0x80) ∧
      ¬(0xD800 ≤ (b1 - 0xE0) * 4096 + (b2 - 0x80) * 64 + (b3 - 0x80) ∧
        (b1 - 0xE0) * 4096 + (b2 - 0x80) * 64 + (b3 - 0x80) < 0xE000)) :
    utf8Decode (b1 :: b2 :: b3 :: bs)
      = (utf8Decode bs).map
          (Char.ofNat ((b1 - 0xE0) * 4096 + (b2 - 0x80) * 64 + (b3 - 0x80)) :: ·) := by
  rw [utf8Decode_step, if_neg h1, if_neg h2, if_neg h3, if_pos h4,
      show utf8Cont3 b1 (b2 :: b3 :: bs)
        = (if 0x80 ≤ b2 ∧ b2 < 0xC0 ∧ 0x80 ≤ b3 ∧ b3 < 0xC0 then
             (if 0x800 ≤ (b1 - 0xE0) * 4096 + (b2 - 0x80) * 64 + (b3 - 0x80) ∧
                 ¬(0xD800 ≤ (b1 - 0xE0) * 4096 + (b2 - 0x80) * 64 + (b3 - 0x80) ∧
                   (b1 - 0xE0) * 4096 + (b2 - 0x80) * 64 + (b3 - 0x80) < 0xE000) then
               (utf8Decode bs).map
                 (Char.ofNat ((b1 - 0xE0) * 4096 + (b2 - 0x80) * 64 + (b3 - 0x80)) :: ·)
             else none)
           else none) from rfl,
      if_pos hc, if_pos hv]

theorem utf8Decode_four (b1 b2 b3 b4 : Nat) (bs : Bytes)
    (h1 : ¬ b1 < 0x80) (h2 : ¬ b1 < 0xC2) (h3 : ¬ b1 < 0xE0) (h4 : ¬ b1 < 0xF0)
    (h5 : b1 < 0xF5)
    (hc : 0x80 ≤ b2 ∧ b2 < 0xC0 ∧ 0x80 ≤ b3 ∧ b3 < 0xC0 ∧ 0x80 ≤ b4 ∧ b4 < 0xC0)
    (hv : 0x10000 ≤ (b1 - 0xF0) * 262144 + (b2 - 0x80) * 4096 + (b3 - 0x80) * 64
        + (b4 - 0x80) ∧
      (b1 - 0xF0) * 262144 + (b2 - 0x80) * 4096 + (b3 - 0x80) * 64 + (b4 - 0x80)
        < 0x110000) :
    utf8Decode (b1 :: b2 :: b3 :: b4 :: bs)
      = (utf8Decode bs).map
          (Char.ofNat ((b1 - 0xF0) * 262144 + (b2 - 0x80) * 4096 + (b3 - 0x80) * 64
            + (b4 - 0x80)) :: ·) := by
  rw [utf8Decode_step, if_neg h1, if_neg h2, if_neg h3, if_neg h4, if_pos h5,
      show utf8Cont4 b1 (b2 :: b3 :: b4 :: bs)
        = (if 0x80 ≤ b2 ∧ b2 < 0xC0 ∧ 0x80 ≤ b3 ∧ b3 < 0xC0 ∧ 0x80 ≤ b4 ∧ b4 < 0xC0 then
             (if 0x10000 ≤ (b1 - 0xF0) * 262144 + (b2 - 0x80) * 4096 + (b3 - 0x80) * 64
                   + (b4 - 0x80) ∧
                 (b1 - 0xF0) * 262144 + (b2 - 0x80) * 4096 + (b3 - 0x80) * 64 + (b4 - 0x80)
                   < 0x110000 then
               (utf8Decode bs).map
                 (Char.ofNat ((b1 - 0xF0) * 262144 + (b2 - 0x80) * 4096 + (b3 - 0x80) * 64
                   + (b4 - 0x80)) :: ·)
             else none)
           else none) from rfl,
      if_pos hc, if_pos hv]

theorem utf8Char_decode (c : Char) (bs : Bytes) :
    utf8Decode (utf8Char c ++ bs) = (utf8Decode bs).map (c :: ·) := by
  have hval := char_valid_range c
  by_cases h1 : c.toNat < 0x80
  · have e1 : utf8Char c = [c.toNat] := by
      simp only [utf8Char]
      rw [if_pos h1]
    rw [e1, List.cons_append, List.nil_append, utf8Decode_one _ _ h1, Char.ofNat_toNat]
  by_cases h2 : c.toNat < 0x800
  · have e1 : utf8Char c = [0xC0 + c.toNat / 64, 0x80 + c.toNat % 64] := by
      simp only [utf8Char]
      rw [if_neg h1, if_pos h2]
    rw [e1, List.cons_append, List.cons_append, List.nil_append,
        utf8Decode_two _ _ _ (by omega) (by omega) (by omega) (by omega),
        show (0xC0 + c.toNat / 64 - 0xC0) * 64 + (0x80 + c.toNat % 64 - 0x80) = c.toNat
          from by omega,
        Char.ofNat_toNat]
  by_cases h3 : c.toNat < 0x10000
  · have e1 : utf8Char c
        = [0xE0 + c.toNat / 4096, 0x80 + c.toNat / 64 % 64, 0x80 + c.toNat % 64] := by
      simp only [utf8Char]
      rw [if_neg h1, if_neg h2, if_pos h3]
    rw [e1, List.cons_append, List.cons_append, List.cons_append, List.nil_append,
        utf8Decode_three _ _ _ _ (by omega) (by omega) (by omega) (by omega) (by omega)
          (by constructor <;> omega),
        show (0xE0 + c.toNat / 4096 - 0xE0) * 4096 + (0x80 + c.toNat / 64 % 64 - 0x80) * 64
              + (0x80 + c.toNat % 64 - 0x80) = c.toNat from by omega,
        Char.ofNat_toNat]
  · have e1 : utf8Char c
        = [0xF0 + c.toNat / 262144, 0x80 + c.toNat / 4096 % 64,
           0x80 + c.toNat / 64 % 64, 0x80 + c.toNat % 64] := by
      simp only [utf8Char]
      rw [if_neg h1, if_neg h2, if_neg h3]
    rw [e1, List.cons_append, List.cons_append, List.cons_append, List.cons_append,
        List.nil_append,
        utf8Decode_four _ _ _ _ _ (by omega) (by omega) (by omega) (by omega) (by omega)
          (by omega) (by constructor <;> omega),
        show (0xF0 + c.toNat / 262144 - 0xF0) * 262144 + (0x80 + c.toNat / 4096 % 64 - 0x80)
              * 4096 + (0x80 + c.toNat / 64 % 64 - 0x80) * 64 + (0x80 + c.toNat % 64 - 0x80)
            = c.toNat from by omega,
        Char.ofNat_toNat]

/-- `bytes.decode('utf-8')` inverts `str.encode('utf-8')`. -/
theorem utf8Decode_encode (cs : List Char) : utf8Decode (utf8Encode cs) = some cs := by
  induction cs with
  | nil => rfl
  | cons c cs ih =>
      rw [show utf8Encode (c :: cs) = utf8Char c ++ utf8Encode cs from by simp [utf8Encode],
          utf8Char_decode, ih]
      rfl

/-- Deserializing the uploaded metadata payload (UTF-8 decode followed by
`json.loads`) recovers the original value. -/
theorem deserialize_utf8_dumps (j : Json) :
    deserialize (utf8Encode (dumpsTop j)) = some j := by
  rw [deserialize, utf8Decode_encode]
  simp [loadsL_dumpsTop]

/-! ### Claims -/

/-- Claim C1: every operation catches any exception raised in its body — a
file-open failure, a raised backend call, a JSON-decode failure of the pin
response, or a `KeyError` for the missing cid header — and returns the
exception value itself; since each operation is a total function into the
result union, no exception propagates out of its boundary. -/
theorem operations_return_caught_exceptions (c : Filebase) (env : Env)
    (name bucket path : String) (data : Json) (e : Exn) (body : Bytes)
    (resp : HttpResponse) (s3resp : S3Response) :
    (env.s3 (.create_bucket (pyLower name)) = .error e →
       (c.create_bucket env name).2 = .exn e) ∧
    (env.s3 .list_buckets = .error e → (c.list_buckets env).2 = .exn e) ∧
    (env.openFile path = .error e →
       (c.upload_object env path name bucket).2 = .exn e) ∧
    (env.openFile path = .ok body →
       env.s3 (.put_object body (pyLower bucket) name) = .error e →
       (c.upload_object env path name bucket).2 = .exn e) ∧
    (env.s3 (.delete_object (pyLower bucket) name) = .error e →
       (c.delete_object env name bucket).2 = .exn e) ∧
    (env.s3 (.put_object (utf8Encode (dumpsTop data)) (pyLower bucket) name) = .error e →
       (c.upload_metadata env data name bucket).2 = .exn e) ∧
    (env.httpGet pinUrl (pinHeaders c bucket) = .error e →
       (c.list_pinned_objects env bucket).2 = .exn e) ∧
    (env.httpGet pinUrl (pinHeaders c bucket) = .ok resp → resp.ok = true →
       loadsTop resp.text = none →
       (c.list_pinned_objects env bucket).2 = .exn (.jsonDecodeError resp.text)) ∧
    (env.openFile path = .ok body →
       env.s3 (.put_object body (pyLower bucket) name) = .ok s3resp →
       s3resp.ResponseMetadata.HTTPStatusCode = 200 →
       dictGet s3resp.ResponseMetadata.HTTPHeaders "x-amz-meta-cid" = none →
       (c.upload_object env path name bucket).2 = .exn (.keyError "x-amz-meta-cid")) ∧
    (env.s3 (.put_object (utf8Encode (dumpsTop data)) (pyLower bucket) name) = .ok s3resp →
       s3resp.ResponseMetadata.HTTPStatusCode = 200 →
       dictGet s3resp.ResponseMetadata.HTTPHeaders "x-amz-meta-cid" = none →
       (c.upload_metadata env data name bucket).2 = .exn (.keyError "x-amz-meta-cid")) := by
  refine ⟨?_, ?_, ?_, ?_, ?_, ?_, ?_, ?_, ?_, ?_⟩
  · intro h; simp [Filebase.create_bucket, h]
  · intro h; simp [Filebase.list_buckets, h]
  · intro h; simp [Filebase.upload_object, h]
  · intro h1 h2; simp [Filebase.upload_object, h1, h2]
  · intro h; simp [Filebase.delete_object, h]
  · intro h; simp [Filebase.upload_metadata, h]
  · intro h; simp [Filebase.list_pinned_objects, h]
  · intro h1 h2 h3; simp [Filebase.list_pinned_objects, h1, h2, h3]
  · intro h1 h2 h3 h4; simp [Filebase.upload_object, h1, h2, h3, h4]
  · intro h1 h2 h3; simp [Filebase.upload_metadata, h1, h2, h3]

/-- Witness for C1: in a world where every backend step raises, the caught
exception values come back from `upload_object` (file open) and
`list_pinned_objects` (request call). -/
theorem operations_return_caught_exceptions_witness :
    (fb0.upload_object envRaise "f.txt" "n" "B").2 = .exn (.ioError "ENOENT") ∧
    (fb0.list_pinned_objects envRaise "B").2 = .exn (.clientError "conn") :=
  ⟨(operations_return_caught_exceptions fb0 envRaise "n" "B" "f.txt" .null
      (.ioError "ENOENT") [] resp500 respOkCid).2.2.1 rfl,
   (operations_return_caught_exceptions fb0 envRaise "n" "B" "f.txt" .null
      (.clientError "conn") [] resp500 respOkCid).2.2.2.2.2.2.1 rfl⟩

/-- Claim C2: `handle_error` maps a structured object-store response dict to
`{status := HTTPStatusCode, reason := HTTPStatusCode, text := the whole
response}` (reason duplicates status exactly), and an HTTP response object
to `{status := status_code, reason := reason phrase, text := body text}`. -/
theorem handle_error_normalizes :
    (∀ r : S3Response, Filebase.handle_error (.dict r) =
       { status := r.ResponseMetadata.HTTPStatusCode
         reason := .ofNat r.ResponseMetadata.HTTPStatusCode
         text := .ofResp r }) ∧
    (∀ r : HttpResponse, Filebase.handle_error (.httpResp r) =
       { status := r.status_code, reason := .ofStr r.reason, text := .ofStr r.text }) :=
  ⟨fun _ => rfl, fun _ => rfl⟩

/-- Claim C3: whatever HTTP response the pin-status backend returns,
`list_pinned_objects` returns the parsed JSON body when the response is OK,
and the normalized `{status, reason, text}` record (without raising — it is
a total function) when it is not. -/
theorem list_pinned_objects_response (c : Filebase) (env : Env) (bucket : String)
    (resp : HttpResponse)
    (henv : env.httpGet pinUrl (pinHeaders c bucket) = .ok resp) :
    (resp.ok = true → ∀ j, loadsTop resp.text = some j →
       (c.list_pinned_objects env bucket).2 = .json j) ∧
    (resp.ok = false →
       (c.list_pinned_objects env bucket).2 =
         .err { status := resp.status_code
                reason := .ofStr resp.reason
                text := .ofStr resp.text }) := by
  constructor
  · intro hok j hj; simp [Filebase.list_pinned_objects, henv, hok, hj]
  · intro hok
    simp [Filebase.list_pinned_objects, henv, hok, Filebase.handle_error]

/-- Witness for C3: a mocked HTTP 500 pin-status backend makes
`list_pinned_objects` return `{status := 500, reason := "Internal Server
Error", text := "oops"}`. -/
theorem list_pinned_objects_response_witness :
    (fb0.list_pinned_objects env500 "bucketname").2 =
      .err { status := 500
             reason := .ofStr "Internal Server Error"
             text := .ofStr "oops" } :=
  (list_pinned_objects_response fb0 env500 "bucketname" resp500 rfl).2 rfl

/-- Claim C5 fails on the code: `list_pinned_objects` does not lowercase the
bucket before using it in the backend call — the bearer token is built from
the verbatim bucket string, so the request issued for bucket `"A"` differs
from the request issued for its lowercase form `"a"`. -/
theorem bucket_lowercasing_counterexample :
    (fb0.list_pinned_objects envOk "A").1 ≠
      (fb0.list_pinned_objects envOk ((pyLower "A"))).1 := by decide

/-- Claim C5 (amended): the four object-store operations lowercase the
bucket name before the backend call and pass the object key verbatim, while
`list_pinned_objects` uses the bucket name verbatim in its bearer token. -/
theorem bucket_names_lowercased_amended (c : Filebase) (env : Env)
    (name bucket path : String) (data : Json) (body : Bytes)
    (hopen : env.openFile path = .ok body) :
    (c.create_bucket env name).1 = [.s3 (.create_bucket (pyLower name))] ∧
    (c.upload_object env path name bucket).1 =
      [.s3 (.put_object body (pyLower bucket) name)] ∧
    (c.delete_object env name bucket).1 =
      [.s3 (.delete_object (pyLower bucket) name)] ∧
    (c.upload_metadata env data name bucket).1 =
      [.s3 (.put_object (utf8Encode (dumpsTop data)) (pyLower bucket) name)] ∧
    (c.list_pinned_objects env bucket).1 = [.httpGet pinUrl (pinHeaders c bucket)] ∧
    pinAuthToken c bucket =
      b64encode (utf8Encode
        (c.filebase_api_key ++ ":" ++ c.filebase_secret_api_key ++ ":" ++ bucket).data) := by
  refine ⟨rfl, ?_, rfl, rfl, rfl, rfl⟩
  simp [Filebase.upload_object, hopen]

/-- Witness for the amended C5: concrete calls issue exactly the expected
backend requests, bucket lowercased for the object store only. -/
theorem bucket_names_lowercased_amended_witness :
    (fb0.create_bucket envOk "MyBucket").1 = [.s3 (.create_bucket "mybucket")] ∧
    (fb0.upload_object envOk "f.txt" "KeyName" "MyBucket").1 =
      [.s3 (.put_object [104, 105] "mybucket" "KeyName")] :=
  ⟨(bucket_names_lowercased_amended fb0 envOk "MyBucket" "B" "f.txt" .null
      [104, 105] rfl).1,
   (bucket_names_lowercased_amended fb0 envOk "KeyName" "MyBucket" "f.txt" .null
      [104, 105] rfl).2.1⟩

/-- Claim C6: `list_pinned_objects` issues exactly one HTTP GET, to
`API_ENDPOINT ++ "ipfs/pins"`, with the Authorization header
`"Bearer " ++ base64(api_key:secret_key:bucket)` and Content-Type
`application/json`, in every world. -/
theorem list_pinned_objects_single_get (c : Filebase) (env : Env) (bucket : String) :
    (c.list_pinned_objects env bucket).1 =
      [.httpGet (API_ENDPOINT ++ "ipfs/pins")
         [("Authorization", "Bearer " ++ b64encode (utf8Encode
             (c.filebase_api_key ++ ":" ++ c.filebase_secret_api_key ++ ":" ++ bucket).data)),
          ("Content-Type", "application/json")]] := rfl

/-- Claim C7: when the `put_object` response of `upload_object` has status
200, the operation returns the string stored under the `x-amz-meta-cid`
response header; when the status is not 200, it returns the normalized
error record instead. -/
theorem upload_object_response (c : Filebase) (env : Env)
    (path name bucket : String) (body : Bytes) (resp : S3Response)
    (hopen : env.openFile path = .ok body)
    (hs3 : env.s3 (.put_object body (pyLower bucket) name) = .ok resp) :
    (resp.ResponseMetadata.HTTPStatusCode = 200 →
       ∀ cid, dictGet resp.ResponseMetadata.HTTPHeaders "x-amz-meta-cid" = some cid →
       (c.upload_object env path name bucket).2 = .cid cid) ∧
    (resp.ResponseMetadata.HTTPStatusCode ≠ 200 →
       (c.upload_object env path name bucket).2 =
         .err { status := resp.ResponseMetadata.HTTPStatusCode
                reason := .ofNat resp.ResponseMetadata.HTTPStatusCode
                text := .ofResp resp }) := by
  constructor
  · intro h200 cid hcid; simp [Filebase.upload_object, hopen, hs3, h200, hcid]
  · intro h200
    simp [Filebase.upload_object, hopen, hs3, h200, Filebase.handle_error]

/-- Witness for C7: a 200 response carrying the cid header makes
`upload_object` return that cid string. -/
theorem upload_object_response_witness :
    (fb0.upload_object envOk "f.txt" "n" "B").2 = .cid "QmCID" :=
  (upload_object_response fb0 envOk "f.txt" "n" "B" [104, 105] respOkCid
    rfl rfl).1 rfl "QmCID" rfl

/-- Claim C8: no operation changes the session object: the credential pair
and the backend handle are identical before and after every call, and hence
after every sequence of calls. -/
theorem session_state_immutable (c : Filebase) (env : Env) :
    (∀ ops : List OpCall, c.runSeq env ops = c) ∧
    (∀ op : OpCall, (c.callOp env op).1 = c) := by
  have h1 : ∀ op : OpCall, (c.callOp env op).1 = c := fun op => by
    cases op <;> rfl
  refine ⟨fun ops => ?_, h1⟩
  induction ops with
  | nil => rfl
  | cons op ops ih => rw [Filebase.runSeq, h1]; exact ih

/-- Claim C9: an OK pin-status response whose body fails to decode as JSON
makes `list_pinned_objects` return the caught `json.JSONDecodeError` value,
not the raw body and not a raised error. -/
theorem list_pinned_objects_bad_json (c : Filebase) (env : Env) (bucket : String)
    (resp : HttpResponse)
    (henv : env.httpGet pinUrl (pinHeaders c bucket) = .ok resp)
    (hok : resp.ok = true) (hbad : loadsTop resp.text = none) :
    (c.list_pinned_objects env bucket).2 = .exn (.jsonDecodeError resp.text) := by
  simp [Filebase.list_pinned_objects, henv, hok, hbad]

/-- Witness for C9: a 200 response with body `"not json"` yields the caught
decode exception. -/
theorem list_pinned_objects_bad_json_witness :
    (fb0.list_pinned_objects envNoCid "B").2 = .exn (.jsonDecodeError "not json") :=
  list_pinned_objects_bad_json fb0 envNoCid "B" respBadJson rfl rfl rfl

/-- Claim C10: a 200 `put_object` response without the `x-amz-meta-cid`
header makes `upload_object` and `upload_metadata` return the caught
`KeyError` value — neither a success payload nor an error record. -/
theorem upload_cid_header_missing (c : Filebase) (env : Env)
    (path name bucket : String) (data : Json) (body : Bytes) (resp : S3Response)
    (h200 : resp.ResponseMetadata.HTTPStatusCode = 200)
    (hmiss : dictGet resp.ResponseMetadata.HTTPHeaders "x-amz-meta-cid" = none) :
    (env.openFile path = .ok body →
       env.s3 (.put_object body (pyLower bucket) name) = .ok resp →
       (c.upload_object env path name bucket).2 = .exn (.keyError "x-amz-meta-cid")) ∧
    (env.s3 (.put_object (utf8Encode (dumpsTop data)) (pyLower bucket) name) = .ok resp →
       (c.upload_metadata env data name bucket).2 = .exn (.keyError "x-amz-meta-cid")) := by
  constructor
  · intro hopen hs3; simp [Filebase.upload_object, hopen, hs3, h200, hmiss]
  · intro hs3; simp [Filebase.upload_metadata, hs3, h200, hmiss]

/-- Witness for C10: a header-less 200 response yields the caught `KeyError`
from both upload operations. -/
theorem upload_cid_header_missing_witness :
    (fb0.upload_object envNoCid "f.txt" "n" "B").2 = .exn (.keyError "x-amz-meta-cid") ∧
    (fb0.upload_metadata envNoCid .null "n" "B").2 = .exn (.keyError "x-amz-meta-cid") :=
  ⟨(upload_cid_header_missing fb0 envNoCid "f.txt" "n" "B" .null [] respNoCid
      rfl rfl).1 rfl rfl,
   (upload_cid_header_missing fb0 envNoCid "f.txt" "n" "B" .null [] respNoCid
      rfl rfl).2 rfl⟩

/-- Claim C4: `upload_metadata` uploads exactly the UTF-8 encoding of the
pretty-printed (4-space indent) JSON serialization of `data`, and
deserializing that payload (UTF-8 decode, then `json.loads`) recovers
`data`. -/
theorem upload_metadata_payload_roundtrip (c : Filebase) (env : Env)
    (data : Json) (name bucket : String) :
    (c.upload_metadata env data name bucket).1 =
      [.s3 (.put_object (utf8Encode (dumpsTop data)) (pyLower bucket) name)] ∧
    deserialize (utf8Encode (dumpsTop data)) = some data :=
  ⟨rfl, deserialize_utf8_dumps data⟩

end Filebasepy
